import Mathlib

/-!
# psmload: worker orchestration and per-worker transaction lifecycle

A shallow embedding of `psmload/psmload.go`, `psmload/types.go` and `main.go`.

Conventions of the embedding

* A Go `string` is a list of characters (`GoString`).  The source only compares,
  searches and concatenates text, so code points stand for the UTF-8 bytes.
* A Go `error` is `Option GoString`: `none` is `nil`, `some msg` carries the message.
* Everything outside the process (the `agd` and `node` subprocesses, the HTTP
  endpoints, the JSON decoder, `%f` formatting) is a field of `World`; every
  function that touches it also returns the list of `Event`s it caused, in order.
* A run-time panic and a call that never returns are explicit `Outcome`s.
* `zap` logging has no effect on state or control flow and is left out.
-/

namespace PSMLoad

/-- Go `string`. -/
abbrev GoString := List Char

/-- Go `error`: `none` is `nil`. -/
abbrev GoError := Option GoString

/-! ## The parts of `strings`, `regexp` and `fmt` the source uses -/

/-- Go `strings.HasPrefix(s, pre)`. -/
def HasPrefix (s pre : GoString) : Bool := pre.isPrefixOf s

/-- Worker of `strings.ReplaceAll` for a non-empty `old`: scans left to right, and
after a match skips the matched characters (matches do not overlap). -/
def replaceFrom (old new : GoString) : Nat → GoString → GoString
  | _, [] => []
  | skip + 1, _ :: cs => replaceFrom old new skip cs
  | 0, c :: cs =>
    if HasPrefix (c :: cs) old then new ++ replaceFrom old new (old.length - 1) cs
    else c :: replaceFrom old new 0 cs

/-- Go `strings.ReplaceAll(s, old, new)`.  An empty `old` matches before every
character and at the end. -/
def ReplaceAll (s old new : GoString) : GoString :=
  if old = [] then new ++ s.flatMap (fun c => c :: new)
  else replaceFrom old new 0 s

/-- Number of positions of `s` at which `old` occurs. -/
def countOcc (old : GoString) : GoString → Nat
  | [] => if HasPrefix [] old then 1 else 0
  | c :: cs => (if HasPrefix (c :: cs) old then 1 else 0) + countOcc old cs

/-- Worker of `strings.Index`: position of the first occurrence at or after `i`. -/
def indexFrom (substr : GoString) : GoString → Nat → Int
  | [], i => if HasPrefix [] substr then (i : Int) else -1
  | c :: cs, i => if HasPrefix (c :: cs) substr then (i : Int) else indexFrom substr cs (i + 1)

/-- Go `strings.Index(s, substr)`: `-1` when `substr` does not occur in `s`. -/
def Index (s substr : GoString) : Int := indexFrom substr s 0

/-- What `.` repeated to `$` consumes under `(?m)`: the rest of the current line. -/
def restOfLine (s : GoString) : GoString := s.takeWhile (fun c => c != '\n')

/-- Leftmost match of `(?m)<lit>(.+)$` (equally `(.+?)$`): the first position where
`lit` occurs followed by at least one character before the line ends; the result is
that non-empty rest of the line. -/
def findAfter (lit : GoString) : GoString → Option GoString
  | [] => none
  | c :: cs =>
    if HasPrefix (c :: cs) lit && !(restOfLine ((c :: cs).drop lit.length)).isEmpty then
      some (restOfLine ((c :: cs).drop lit.length))
    else findAfter lit cs

/-- First submatch of `re = (?m)address: (agoric1.+)$`. -/
def reFind (out : GoString) : Option GoString :=
  (findAfter "address: agoric1".toList out).map (fun r => "agoric1".toList ++ r)

/-- First submatch of `reChain = (?m)Chain: (.+?)$`. -/
def reChainFind (body : GoString) : Option GoString := findAfter "Chain: ".toList body

/-- First submatch of `txChain = (?m)txhash: (.+?)$`. -/
def txChainFind (out : GoString) : Option GoString := findAfter "txhash: ".toList out

/-- The verb `%d` of `fmt.Sprintf`. -/
def fmtInt (n : Int) : GoString := (toString n).toList

/-! ## Data model -/

/-- A `float64`, kept as its 64 bits; the source only stores and formats it. -/
structure Float64 where
  bits : Nat
  deriving DecidableEq

/-- The literal `0.01` of `work`. -/
def float_0_01 : Float64 := ⟨0x3F847AE147AE147B⟩

/-- The fields of `PSMLoadApp`.  `mtx` is modelled where threads interleave
(`Shared.locked`); `client` is the HTTP side of `World`. -/
structure PSMLoadApp where
  Instagoric : GoString
  Workers : Int
  Fee : Float64
  homeDir : GoString
  keys : List GoString
  chainId : GoString
  boardId : GoString
  deriving DecidableEq

/-- The fields of `TxResponse.TxResponse` that the source reads. -/
structure TxResponse where
  Code : Int
  RawLog : GoString
  deriving DecidableEq

/-- What a finished subprocess leaves: both streams and whether it exited with an error. -/
structure CmdResult where
  stdout : GoString
  stderr : GoString
  failed : Bool
  deriving DecidableEq

/-- What `client.Get` returns: an error, or a response with status and body. -/
inductive HttpResult where
  | transportErr (msg : GoString)
  | response (status : Nat) (body : GoString)
  deriving DecidableEq

/-- The world outside the process.  `httpGet url n` answers the `n`-th GET (from 0)
that one call sends to `url`. -/
structure World where
  agd : List GoString → CmdResult
  node : List GoString → CmdResult
  httpGet : GoString → Nat → HttpResult
  postForm : GoString → List (GoString × GoString) → GoError
  jsonDecode : GoString → Except GoString TxResponse
  fmtFloat : Float64 → GoString

/-- Externally visible actions, in the order the code performs them. -/
inductive Event where
  | exec (cmd : GoString) (args : List GoString)
  | get (url : GoString)
  | post (url : GoString) (form : List (GoString × GoString))
  | sleep (ms : Nat)
  | submit (idx : Int)
  deriving DecidableEq

/-- How a call that may panic or never return ends. -/
inductive Outcome (α : Type) where
  | ret (a : α)
  | panicked (msg : GoString)
  | blocked
  deriving DecidableEq

/-- A call's effect: the app afterwards, what it returned, what it did. -/
structure Step (α : Type) where
  app : PSMLoadApp
  result : α
  trace : List Event

/-! ## Operations of `psmload.go` -/

/-- Go `keyName`. -/
def keyName (idx : Int) : GoString := "key".toList ++ fmtInt idx

/-- Arguments of the `agd keys add` call of `newKey`. -/
def newKeyArgs (p : PSMLoadApp) (idx : Int) : List GoString :=
  ["keys".toList, "add".toList, keyName idx, "--keyring-backend".toList, "test".toList,
   "--home".toList, p.homeDir, "--no-backup".toList]

/-- Go `newKey`: returns `(address, keyname, err)`.  A failed tool run is only logged;
the result depends on the output alone. -/
def newKey (w : World) (p : PSMLoadApp) (idx : Int) : GoString × GoString × GoError :=
  let out := (w.agd (newKeyArgs p idx)).stdout
  match reFind out with
  | some addr => (addr, keyName idx, none)
  | none => ([], [], some "error making key".toList)

/-- The loop of `CreateKeys` with `k` iterations left, at index `i`. -/
def CreateKeysLoop (w : World) : Nat → Int → PSMLoadApp → Step (Outcome GoError)
  | 0, _, p => ⟨p, .ret none, []⟩
  | k + 1, i, p =>
    let r := newKey w p i
    let ev := Event.exec "agd".toList (newKeyArgs p i)
    if 0 ≤ i ∧ i.toNat < p.keys.length then
      let p1 := { p with keys := p.keys.set i.toNat r.1 }
      match r.2.2 with
      | some e => ⟨p1, .panicked e, [ev]⟩
      | none =>
        let rest := CreateKeysLoop w k (i + 1) p1
        ⟨rest.app, rest.result, ev :: rest.trace⟩
    else ⟨p, .panicked "index out of range".toList, [ev]⟩

/-- Go `CreateKeys`: `for i := int64(0); i < p.Workers; i++`. -/
def CreateKeys (w : World) (p : PSMLoadApp) : Step (Outcome GoError) :=
  CreateKeysLoop w p.Workers.toNat 0 p

/-- Go `instagoricToService`. -/
def instagoricToService (p : PSMLoadApp) (service : GoString) : GoString :=
  ReplaceAll p.Instagoric ".agoric.net".toList ('.' :: service ++ ".agoric.net".toList)

/-- The form `provisionAddress` posts, in the order of its `Add` calls. -/
def provisionForm (address : GoString) : List (GoString × GoString) :=
  [("address".toList, address), ("command".toList, "client".toList),
   ("clientType".toList, "SMART_WALLET".toList)]

/-- Go `provisionAddress`: one `PostForm` to `<faucet>/go`. -/
def provisionAddress (w : World) (p : PSMLoadApp) (address : GoString) : GoError × List Event :=
  let url := instagoricToService p "faucet".toList ++ "/go".toList
  let data := provisionForm address
  match w.postForm url data with
  | some _ => (some "error provisioning".toList, [.post url data])
  | none => (none, [.post url data])

/-- Go `getChainId`, as the `n`-th GET of the chain root.  The status code is not looked at. -/
def getChainId (w : World) (p : PSMLoadApp) (n : Nat) : Except GoString GoString :=
  match w.httpGet p.Instagoric n with
  | .transportErr e => .error e
  | .response _ bod =>
    match reChainFind bod with
    | some v => .ok v
    | none => .error "unable to find chain id".toList

/-- The `--net` argument: `{"rpc": "<endpoint>", "chainId": "<chainId>"}`. -/
def networkFlag (endpoint chainId : GoString) : GoString :=
  "\x7b\x22rpc\x22: \x22".toList ++ endpoint ++ "\x22, \x22chainId\x22: \x22".toList ++ chainId ++
    "\x22\x7d".toList

/-- The argument list `invokeNode` hands to `node`. -/
def ourArgs (p : PSMLoadApp) (nodeArgs : List GoString) : List GoString :=
  ["psm-tool.js".toList, "--net".toList,
   networkFlag (instagoricToService p "rpc".toList) p.chainId] ++ nodeArgs

/-- Go `invokeNode`, run by one thread on its own (the mutex is free and is released
again before the call returns).  A failing `node` is only logged: the call returns
its standard output and a `nil` error. -/
def invokeNode (w : World) (p : PSMLoadApp) (nodeArgs : List GoString) :
    Step (GoString × GoError) :=
  if p.chainId = [] then
    match getChainId w p 0 with
    | .error e => ⟨p, ([], some e), [.get p.Instagoric]⟩
    | .ok achainId =>
      let p1 := { p with chainId := achainId }
      ⟨p1, ((w.node (ourArgs p1 nodeArgs)).stdout, none),
        [.get p.Instagoric, .exec "node".toList (ourArgs p1 nodeArgs)]⟩
  else
    ⟨p, ((w.node (ourArgs p nodeArgs)).stdout, none), [.exec "node".toList (ourArgs p nodeArgs)]⟩

/-- The mode flags `getOffer` passes. -/
def offerArgs (w : World) (p : PSMLoadApp) (want : Float64) : List GoString :=
  ["--wantStable".toList, w.fmtFloat want, "--boardId".toList, p.boardId,
   "--feePct".toList, w.fmtFloat p.Fee]

/-- Go `getOffer`. -/
def getOffer (w : World) (p : PSMLoadApp) (want : Float64) : Step (GoString × GoError) :=
  let r := invokeNode w p (offerArgs w p want)
  match r.result.2 with
  | some e => ⟨r.app, ([], some e), r.trace⟩
  | none => ⟨r.app, (r.result.1, none), r.trace⟩

/-- Arguments of the `agd tx swingset wallet-action` call of `broadcastOffer`. -/
def cmdargs (p : PSMLoadApp) (idx : Int) (offerData : GoString) : List GoString :=
  ["--node".toList, instagoricToService p "rpc".toList, "--chain-id".toList, p.chainId,
   "--from".toList, keyName idx, "--keyring-backend=test".toList, "-b".toList, "sync".toList,
   "--home".toList, p.homeDir, "tx".toList, "swingset".toList, "wallet-action".toList,
   "-y".toList, "--allow-spend".toList, offerData]

/-- Go `p.keys[idx]`: out of range is a run-time panic. -/
def keyAt (p : PSMLoadApp) (idx : Int) : Option GoString :=
  if 0 ≤ idx then p.keys[idx.toNat]? else none

/-- Go `broadcastOffer`: returns `(txhash, err)` and the actions performed. -/
def broadcastOffer (w : World) (p : PSMLoadApp) (idx : Int) (offerData : GoString) :
    Outcome (GoString × GoError) × List Event :=
  let run := w.agd (cmdargs p idx offerData)
  let ev := Event.exec "agd".toList (cmdargs p idx offerData)
  if run.failed then
    if Index run.stderr "not found: key not found".toList ≥ 0 then
      match keyAt p idx with
      | none => (.panicked "index out of range".toList, [ev])
      | some addr =>
        (.ret ([], some "error broadcasting offer".toList),
          ev :: (provisionAddress w p addr).2 ++ [.sleep 10000])
    else (.ret ([], some "error broadcasting offer".toList), [ev])
  else
    match txChainFind run.stdout with
    | some h => (.ret (h, none), [ev])
    | none => (.ret ([], none), [ev])

/-- The URL `getTx` requests. -/
def txUrl (p : PSMLoadApp) (tx : GoString) : GoString :=
  instagoricToService p "api".toList ++ "/cosmos/tx/v1beta1/txs/".toList ++ tx

/-- Go `getTx`, as the `n`-th status request of the enclosing `waitForTx`. -/
def getTx (w : World) (p : PSMLoadApp) (tx : GoString) (n : Nat) : Except GoString TxResponse :=
  match w.httpGet (txUrl p tx) n with
  | .transportErr e => .error e
  | .response status body =>
    if status = 404 then .error "not found yet".toList
    else if status = 200 then
      match w.jsonDecode body with
      | .error e => .error e
      | .ok rp => .ok rp
    else .error ("unknown status ".toList ++ fmtInt status)

/-- The loop of `waitForTx` with `k` iterations left, at attempt `i`. -/
def waitForTxLoop (w : World) (p : PSMLoadApp) (tx : GoString) : Nat → Nat → GoError × List Event
  | 0, _ => (none, [])
  | k + 1, i =>
    match getTx w p tx i with
    | .error _ =>
      let r := waitForTxLoop w p tx k (i + 1)
      (r.1, .get (txUrl p tx) :: .sleep 500 :: r.2)
    | .ok txStatus =>
      if txStatus.Code = 0 then (none, [.get (txUrl p tx)])
      else (some "invalid tx".toList, [.get (txUrl p tx)])

/-- Go `waitForTx`: `for i := 0; i < 50; i++`. -/
def waitForTx (w : World) (p : PSMLoadApp) (tx : GoString) : GoError × List Event :=
  waitForTxLoop w p tx 50 0

/-- Go `work`: one cycle of worker `idx`. -/
def work (w : World) (p : PSMLoadApp) (idx : Int) : Step (Outcome Unit) :=
  let o := getOffer w p float_0_01
  match o.result.2 with
  | some _ => ⟨o.app, .ret (), o.trace⟩
  | none =>
    let b := broadcastOffer w o.app idx o.result.1
    match b.1 with
    | .panicked m => ⟨o.app, .panicked m, o.trace ++ b.2⟩
    | .blocked => ⟨o.app, .blocked, o.trace ++ b.2⟩
    | .ret (_, some _) => ⟨o.app, .ret (), o.trace ++ b.2⟩
    | .ret (txhash, none) => ⟨o.app, .ret (), o.trace ++ b.2 ++ (waitForTx w o.app txhash).2⟩

/-- What one call of a run did: the cached id before and after, whether it sent the
chain-root GET, the argument list given to `node` (if it ran), and the error returned. -/
structure CallRecord where
  before : GoString
  after : GoString
  issuedGet : Bool
  toolArgs : Option (List GoString)
  err : GoError
  deriving DecidableEq

/-- The `node` argument list found in a call's trace. -/
def nodeArgsOf : List Event → Option (List GoString)
  | [] => none
  | .exec cmd args :: rest => if cmd = "node".toList then some args else nodeArgsOf rest
  | _ :: rest => nodeArgsOf rest

/-- Record of one `invokeNode` call made in world `w` with `nodeArgs`. -/
def recordCall (w : World) (p : PSMLoadApp) (nodeArgs : List GoString) : CallRecord :=
  let r := invokeNode w p nodeArgs
  { before := p.chainId, after := r.app.chainId,
    issuedGet := decide (Event.get p.Instagoric ∈ r.trace),
    toolArgs := nodeArgsOf r.trace, err := r.result.2 }

/-- A sequential run: the calls happen one after the other, each in the world as it
is at that time, each starting from the app the previous one left. -/
def runInvokes : PSMLoadApp → List (World × List GoString) → List CallRecord
  | _, [] => []
  | p, (w, nodeArgs) :: rest =>
    recordCall w p nodeArgs :: runInvokes (invokeNode w p nodeArgs).app rest

/-- The call handed `node` an argument list whose network flag carries chain id `v`. -/
def usesChainId (p : PSMLoadApp) (v : GoString) (r : CallRecord) : Prop :=
  ∃ rest, r.toolArgs = some ("psm-tool.js".toList :: "--net".toList ::
    networkFlag (instagoricToService p "rpc".toList) v :: rest)

/-- Number of calls of a run that changed the cached chain id. -/
def writes (rs : List CallRecord) : Nat := (rs.filter (fun r => r.before != r.after)).length

/-! ## Interleaved runs of `invokeNode`

The statements of `invokeNode` that touch shared state, one atomic step each, under
sequentially consistent interleaving. -/

/-- Where a thread stands inside `invokeNode`. -/
inductive PC where
  | check
  | lock
  | resolve
  | fail (e : GoString)
  | store (achainId : GoString)
  | unlock
  | format
  | done (used : Option GoString)
  deriving DecidableEq

/-- The state the threads share: `p.chainId`, `p.mtx`, and how many times
`getChainId` has run. -/
structure Shared where
  chainId : GoString
  locked : Bool
  gets : Nat
  deriving DecidableEq

/-- One step of a thread; `none` when it cannot move (waiting for the mutex, or done). -/
def stepThread (w : World) (p : PSMLoadApp) (s : Shared) : PC → Option (Shared × PC)
  | .check => some (s, if s.chainId = [] then .lock else .format)
  | .lock => if s.locked then none else some ({ s with locked := true }, .resolve)
  | .resolve =>
    match getChainId w p s.gets with
    | .error e => some ({ s with gets := s.gets + 1 }, .fail e)
    | .ok v => some ({ s with gets := s.gets + 1 }, .store v)
  | .fail _ => some ({ s with locked := false }, .done none)
  | .store v => some ({ s with chainId := v }, .unlock)
  | .unlock => some ({ s with locked := false }, .format)
  | .format => some (s, .done (some s.chainId))
  | .done _ => none

/-- Shared state plus the position of every thread. -/
structure Conc where
  shared : Shared
  pcs : List PC
  deriving DecidableEq

/-- The scheduler lets thread `t` take one step. -/
def Conc.step (w : World) (p : PSMLoadApp) (c : Conc) (t : Nat) : Conc :=
  match c.pcs[t]? with
  | none => c
  | some pc =>
    match stepThread w p c.shared pc with
    | none => c
    | some (s, pc1) => ⟨s, c.pcs.set t pc1⟩

/-- Runs a schedule (the thread chosen at each step). -/
def runSchedule (w : World) (p : PSMLoadApp) (sched : List Nat) (c : Conc) : Conc :=
  sched.foldl (Conc.step w p) c

/-- Go `n` threads entering `invokeNode` on app `p`, mutex free. -/
def Conc.init (p : PSMLoadApp) (n : Nat) : Conc :=
  ⟨⟨p.chainId, false, 0⟩, List.replicate n .check⟩

/-! ## Observations on traces -/

/-- Number of GET requests in a trace. -/
def fetches : List Event → Nat
  | [] => 0
  | .get _ :: rest => fetches rest + 1
  | _ :: rest => fetches rest

/-- The event that directly follows the `i`-th GET (from 0) of a trace. -/
def afterFetch : List Event → Nat → Option Event
  | [], _ => none
  | .get _ :: rest, 0 => rest.head?
  | .get _ :: rest, i + 1 => afterFetch rest i
  | _ :: rest, i => afterFetch rest i

/-- The result code the `i`-th status fetch decodes; `none` when that fetch fails
(HTTP 404, another status than 200, transport error, decode error). -/
def decodedCode (w : World) (p : PSMLoadApp) (tx : GoString) (i : Nat) : Option Int :=
  match getTx w p tx i with
  | .ok rp => some rp.Code
  | .error _ => none

/-- Number of POST requests in a trace. -/
def posts : List Event → Nat
  | [] => 0
  | .post _ _ :: rest => posts rest + 1
  | _ :: rest => posts rest

/-- Number of subprocess runs of `cmd` in a trace. -/
def execs (cmd : GoString) : List Event → Nat
  | [] => 0
  | .exec c _ :: rest => (if c = cmd then 1 else 0) + execs cmd rest
  | _ :: rest => execs cmd rest

/-- An app on the default root with three identities, chain id and board id resolved. -/
def sampleApp : PSMLoadApp :=
  { Instagoric := "https://ollinet.agoric.net:443".toList, Workers := 3,
    Fee := ⟨0x3F86872B020C49BA⟩, homeDir := "/tmp/agoric_1".toList,
    keys := ["agoric1aaa".toList, "agoric1bbb".toList, "agoric1ccc".toList],
    chainId := "agoricollinet-1".toList, boardId := "board0511".toList }

/-- The same app before the chain id has been resolved. -/
def freshApp : PSMLoadApp := { sampleApp with chainId := [] }

/-- A world in which every tool prints nothing and succeeds, every GET is answered
404, every POST succeeds and no body decodes. -/
def quietWorld : World :=
  { agd := fun _ => ⟨[], [], false⟩, node := fun _ => ⟨[], [], false⟩,
    httpGet := fun _ _ => .response 404 [], postForm := fun _ _ => none,
    jsonDecode := fun _ => .error "EOF".toList, fmtFloat := fun _ => "0.010000".toList }

/-- The ledger tool fails because the account is not yet known on chain. -/
def unprovisionedWorld : World :=
  { quietWorld with
    agd := fun _ =>
      ⟨[], "Error: rpc error: code = NotFound desc = account agoric1aaa not found: key not found".toList,
        true⟩ }

/-- The ledger tool fails because the key is missing from the local keyring. -/
def missingKeyWorld : World :=
  { quietWorld with agd := fun _ => ⟨[], "Error: key0.info: key not found".toList, true⟩ }

/-- The ledger tool succeeds and prints a hash, with the not-found text on stderr. -/
def noisyWorld : World :=
  { quietWorld with
    agd := fun _ => ⟨"txhash: ABC".toList, "warning: not found: key not found".toList, false⟩ }

/-- The key tool exits with an error although it printed an address line. -/
def failingKeyToolWorld : World :=
  { quietWorld with agd := fun _ => ⟨"address: agoric1xyz".toList, "exit status 1".toList, true⟩ }

/-- The quoting tool exits with an error and prints nothing. -/
def failingNodeWorld : World :=
  { quietWorld with node := fun _ => ⟨[], "exit status 1".toList, true⟩ }

/-- The chain root names one chain to the first request and another to later ones. -/
def racyWorld : World :=
  { quietWorld with
    httpGet := fun _ n =>
      if n = 0 then .response 200 "Chain: agoric-A".toList else .response 200 "Chain: agoric-B".toList }

/-- The third status fetch is answered 200 and decodes to the result code 7. -/
def rejectedWorld : World :=
  { quietWorld with
    httpGet := fun _ n => if n < 2 then .response 404 [] else .response 200 "body".toList,
    jsonDecode := fun _ => .ok ⟨7, "out of gas".toList⟩ }

/-- An app with one worker slot. -/
def oneKeyApp : PSMLoadApp := { sampleApp with Workers := 1, keys := [[]] }

/-- Three calls one after the other: the chain root is unreachable for the first,
answers for the second, and is unreachable again for the third. -/
def sampleRun : List (World × List GoString) :=
  [(quietWorld, ["--contract".toList]), (racyWorld, ["--contract".toList]),
   (quietWorld, ["--contract".toList])]

theorem hasPrefix_append (old S : GoString) : HasPrefix (old ++ S) old = true := by
  simp [HasPrefix]

theorem replaceFrom_skip (old new : GoString) (xs S : GoString) :
    replaceFrom old new xs.length (xs ++ S) = replaceFrom old new 0 S := by
  induction xs with
  | nil => simp
  | cons x xs ih => simpa [replaceFrom] using ih

theorem countOcc_cons (old : GoString) (c : Char) (cs : GoString) :
    countOcc old (c :: cs) = (if HasPrefix (c :: cs) old then 1 else 0) + countOcc old cs := rfl

theorem countOcc_append_ge (old xs S : GoString) : countOcc old S ≤ countOcc old (xs ++ S) := by
  induction xs with
  | nil => simp
  | cons x xs ih =>
    rw [List.cons_append, countOcc_cons]
    omega

theorem countOcc_occ_pos (old P S : GoString) (hne : old ≠ []) :
    1 ≤ countOcc old (P ++ old ++ S) := by
  induction P with
  | nil =>
    cases old with
    | nil => exact absurd rfl hne
    | cons c cs =>
      have h := hasPrefix_append (c :: cs) S
      simp only [List.nil_append, List.cons_append] at h ⊢
      simp [countOcc, h]
  | cons x xs ih =>
    rw [List.cons_append, List.cons_append, countOcc_cons]
    omega

theorem replaceFrom_no_occ (old new S : GoString) (h : countOcc old S = 0) :
    replaceFrom old new 0 S = S := by
  induction S with
  | nil => simp [replaceFrom]
  | cons c cs ih =>
    rw [countOcc_cons] at h
    have h1 : HasPrefix (c :: cs) old = false := by
      by_contra hc
      simp at hc
      simp [hc] at h
    have h2 : countOcc old cs = 0 := by omega
    simp [replaceFrom, h1, ih h2]

theorem replaceFrom_once (old new P S : GoString) (hne : old ≠ [])
    (h : countOcc old (P ++ old ++ S) = 1) :
    replaceFrom old new 0 (P ++ old ++ S) = P ++ new ++ S := by
  induction P with
  | nil =>
    cases old with
    | nil => exact absurd rfl hne
    | cons c cs =>
      have hp := hasPrefix_append (c :: cs) S
      simp only [List.nil_append, List.cons_append] at h hp ⊢
      rw [countOcc_cons, hp, if_pos rfl] at h
      have h0 : countOcc (c :: cs) (cs ++ S) = 0 := by omega
      have h1 : countOcc (c :: cs) S = 0 := by
        have := countOcc_append_ge (c :: cs) cs S
        omega
      simp only [replaceFrom, hp, if_true, List.length_cons, Nat.add_sub_cancel]
      rw [replaceFrom_skip, replaceFrom_no_occ _ _ _ h1]
  | cons x xs ih =>
    simp only [List.cons_append, List.append_assoc] at h ⊢
    rw [countOcc_cons] at h
    have hpos := countOcc_occ_pos old xs S hne
    simp only [List.append_assoc] at hpos ih
    have h1 : HasPrefix (x :: (xs ++ (old ++ S))) old = false := by
      by_contra hc
      simp at hc
      simp [hc] at h
      omega
    have h2 : countOcc old (xs ++ (old ++ S)) = 1 := by
      simp [h1] at h
      exact h
    simp [replaceFrom, h1, ih h2]

/-- C10.  For a root `P ++ ".agoric.net" ++ S` in which `.agoric.net` occurs exactly
once, and any service token `t`, `instagoricToService` returns
`P ++ "." ++ t ++ ".agoric.net" ++ S`: the token is inserted as a subdomain label and
nothing else changes.  For the default root and `rpc` the result is
`https://ollinet.rpc.agoric.net:443`. -/
theorem instagoricToService_inserts_label (p : PSMLoadApp) :
    (∀ P S t : GoString, p.Instagoric = P ++ ".agoric.net".toList ++ S →
        countOcc ".agoric.net".toList p.Instagoric = 1 →
        instagoricToService p t = P ++ ".".toList ++ t ++ ".agoric.net".toList ++ S) ∧
    (p.Instagoric = "https://ollinet.agoric.net:443".toList →
        instagoricToService p "rpc".toList = "https://ollinet.rpc.agoric.net:443".toList) := by
  refine ⟨?_, ?_⟩
  · intro P S t hroot honce
    have hne : ".agoric.net".toList ≠ [] := by decide
    unfold instagoricToService ReplaceAll
    rw [if_neg hne, hroot]
    rw [hroot] at honce
    rw [replaceFrom_once _ _ P S hne honce]
    simp
  · intro h
    unfold instagoricToService
    rw [h]
    decide


/-- C10 at the default root, split as `https://ollinet` and `:443`, with token `api`. -/
theorem instagoricToService_inserts_label_witness :
    instagoricToService sampleApp "api".toList =
      "https://ollinet".toList ++ ".".toList ++ "api".toList ++ ".agoric.net".toList ++
        ":443".toList :=
  (instagoricToService_inserts_label sampleApp).1 "https://ollinet".toList ":443".toList
    "api".toList (by decide) (by decide)

/-! ## `waitForTx` -/

theorem decodedCode_none_iff (w : World) (p : PSMLoadApp) (tx : GoString) (i : Nat) :
    decodedCode w p tx i = none ↔ ∃ e, getTx w p tx i = .error e := by
  unfold decodedCode
  cases h : getTx w p tx i <;> simp

theorem decodedCode_ok (w : World) (p : PSMLoadApp) (tx : GoString) (i : Nat) (rp : TxResponse)
    (h : getTx w p tx i = .ok rp) : decodedCode w p tx i = some rp.Code := by
  simp [decodedCode, h]

/-- The two ways the loop ends: every attempt failed, or the last fetch made is the
first one that decoded a response and its code fixes the result. -/
theorem waitForTxLoop_cases (w : World) (p : PSMLoadApp) (tx : GoString) (k i : Nat) :
    (fetches (waitForTxLoop w p tx k i).2 = k ∧ (waitForTxLoop w p tx k i).1 = none ∧
      ∀ m, m < k → decodedCode w p tx (i + m) = none) ∨
    (∃ n rp, fetches (waitForTxLoop w p tx k i).2 = n + 1 ∧ n < k ∧
      getTx w p tx (i + n) = .ok rp ∧ (∀ m, m < n → decodedCode w p tx (i + m) = none) ∧
      (waitForTxLoop w p tx k i).1 = if rp.Code = 0 then none else some "invalid tx".toList) := by
  induction k generalizing i with
  | zero => left; simp [waitForTxLoop, fetches]
  | succ k ih =>
    cases hg : getTx w p tx i with
    | error e =>
      have hd : decodedCode w p tx i = none := (decodedCode_none_iff w p tx i).2 ⟨e, hg⟩
      rcases ih (i + 1) with ⟨h1, h2, h3⟩ | ⟨n, rp, h1, h2, h3, h4, h5⟩
      · left
        refine ⟨by simp [waitForTxLoop, hg, fetches, h1], by simp [waitForTxLoop, hg, h2], ?_⟩
        intro m hm
        cases m with
        | zero => simpa using hd
        | succ m =>
          have := h3 m (by omega)
          rwa [show i + (m + 1) = i + 1 + m by omega]
      · right
        refine ⟨n + 1, rp, by simp [waitForTxLoop, hg, fetches, h1], by omega, ?_, ?_, ?_⟩
        · rwa [show i + (n + 1) = i + 1 + n by omega]
        · intro m hm
          cases m with
          | zero => simpa using hd
          | succ m =>
            have := h4 m (by omega)
            rwa [show i + (m + 1) = i + 1 + m by omega]
        · simp [waitForTxLoop, hg, h5]
    | ok rp =>
      right
      refine ⟨0, rp, ?_, by omega, by simpa using hg, by intro m hm; omega, ?_⟩
      · by_cases hc : rp.Code = 0 <;> simp [waitForTxLoop, hg, hc, fetches]
      · by_cases hc : rp.Code = 0 <;> simp [waitForTxLoop, hg, hc]

/-- After the `m`-th fetch of the loop, when it failed, comes a 500 ms sleep. -/
theorem waitForTxLoop_sleeps (w : World) (p : PSMLoadApp) (tx : GoString) (k i m : Nat)
    (hm : m < fetches (waitForTxLoop w p tx k i).2)
    (hf : decodedCode w p tx (i + m) = none) :
    afterFetch (waitForTxLoop w p tx k i).2 m = some (.sleep 500) := by
  induction k generalizing i m with
  | zero => simp [waitForTxLoop, fetches] at hm
  | succ k ih =>
    cases hg : getTx w p tx i with
    | error e =>
      cases m with
      | zero => simp [waitForTxLoop, hg, afterFetch]
      | succ m =>
        have hm1 : m < fetches (waitForTxLoop w p tx k (i + 1)).2 := by
          simp [waitForTxLoop, hg, fetches] at hm
          exact hm
        have hf1 : decodedCode w p tx (i + 1 + m) = none := by
          rwa [show i + 1 + m = i + (m + 1) by omega]
        have := ih (i + 1) m hm1 hf1
        simpa [waitForTxLoop, hg, afterFetch] using this
    | ok rp =>
      have h1 : fetches (waitForTxLoop w p tx (k + 1) i).2 = 1 := by
        by_cases hc : rp.Code = 0 <;> simp [waitForTxLoop, hg, hc, fetches]
      have hm0 : m = 0 := by omega
      subst hm0
      rw [Nat.add_zero, decodedCode_ok w p tx i rp hg] at hf
      cases hf

/-- C1 (amended).  `waitForTx` returns an error exactly when one of the fetches it
made decoded a non-zero result code.  It returns no error exactly when one of the
fetches it made decoded the code 0, or when all 50 fetches failed and the attempt
budget ran out without any decoded result. -/
theorem waitForTx_error_iff_nonzero_code (w : World) (p : PSMLoadApp) (tx : GoString) :
    ((waitForTx w p tx).1 ≠ none ↔
      ∃ i c, i < fetches (waitForTx w p tx).2 ∧ decodedCode w p tx i = some c ∧ c ≠ 0) ∧
    ((waitForTx w p tx).1 = none ↔
      (∃ i, i < fetches (waitForTx w p tx).2 ∧ decodedCode w p tx i = some 0) ∨
      (fetches (waitForTx w p tx).2 = 50 ∧ ∀ i, i < 50 → decodedCode w p tx i = none)) := by
  unfold waitForTx
  rcases waitForTxLoop_cases w p tx 50 0 with ⟨h1, h2, h3⟩ | ⟨n, rp, h1, h2, h3, h4, h5⟩
  · simp only [Nat.zero_add] at h3
    refine ⟨⟨fun h => absurd h2 h, ?_⟩, ⟨fun _ => Or.inr ⟨h1, h3⟩, fun _ => h2⟩⟩
    rintro ⟨i, c, hi, hc, _⟩
    rw [h1] at hi
    rw [h3 i hi] at hc
    cases hc
  · simp only [Nat.zero_add] at h3 h4
    have hd := decodedCode_ok w p tx n rp h3
    have key : ∀ i c, i < fetches (waitForTxLoop w p tx 50 0).2 →
        decodedCode w p tx i = some c → c = rp.Code := by
      intro i c hi hc
      rw [h1] at hi
      rcases Nat.lt_or_ge i n with hlt | hge
      · rw [h4 i hlt] at hc; cases hc
      · have : i = n := by omega
        subst this
        rw [hd] at hc
        exact (Option.some.inj hc).symm
    by_cases hz : rp.Code = 0
    · rw [if_pos hz] at h5
      refine ⟨⟨fun h => absurd h5 h, ?_⟩, ⟨fun _ => Or.inl ⟨n, by omega, by rw [hd, hz]⟩, fun _ => h5⟩⟩
      rintro ⟨i, c, hi, hc, hne⟩
      exact absurd ((key i c hi hc).trans hz) hne
    · rw [if_neg hz] at h5
      refine ⟨⟨fun _ => ⟨n, rp.Code, by omega, hd, hz⟩, fun _ => by simp [h5]⟩, ⟨?_, ?_⟩⟩
      · intro h; rw [h5] at h; cases h
      · rintro (⟨i, hi, hc⟩ | ⟨hn, hall⟩)
        · exact absurd (key i 0 hi hc).symm hz
        · have := hall n h2
          rw [hd] at this
          cases this

/-- C2.  `waitForTx` makes at most 50 fetches; every fetch that fails (HTTP 404, any
other status than 200, transport error or decode error) is directly followed by a
500 ms sleep; and when each of the first 50 fetches fails it makes exactly 50 fetches
and returns no error. -/
theorem waitForTx_attempt_budget (w : World) (p : PSMLoadApp) (tx : GoString) :
    fetches (waitForTx w p tx).2 ≤ 50 ∧
    (∀ i, i < fetches (waitForTx w p tx).2 → decodedCode w p tx i = none →
      afterFetch (waitForTx w p tx).2 i = some (.sleep 500)) ∧
    ((∀ i, i < 50 → decodedCode w p tx i = none) →
      fetches (waitForTx w p tx).2 = 50 ∧ (waitForTx w p tx).1 = none) := by
  unfold waitForTx
  refine ⟨?_, ?_, ?_⟩
  · rcases waitForTxLoop_cases w p tx 50 0 with ⟨h1, _, _⟩ | ⟨n, rp, h1, h2, _, _, _⟩ <;> omega
  · intro i hi hf
    exact waitForTxLoop_sleeps w p tx 50 0 i hi (by simpa using hf)
  · intro hall
    rcases waitForTxLoop_cases w p tx 50 0 with ⟨h1, h2, _⟩ | ⟨n, rp, _, h2, h3, _, _⟩
    · exact ⟨h1, h2⟩
    · have := hall n h2
      rw [decodedCode_ok w p tx n rp (by simpa using h3)] at this
      cases this

theorem quietWorld_decodes_nothing (p : PSMLoadApp) (tx : GoString) (i : Nat) :
    decodedCode quietWorld p tx i = none := by
  simp [decodedCode, getTx, quietWorld]

/-- C1 as stated fails: when every fetch is answered 404, `waitForTx` returns no
error although no fetch decoded the result code 0. -/
theorem waitForTx_exhausted_returns_nil :
    ¬ (((waitForTx quietWorld sampleApp "ABC".toList).1 = none ↔
        ∃ i, i < fetches (waitForTx quietWorld sampleApp "ABC".toList).2 ∧
          decodedCode quietWorld sampleApp "ABC".toList i = some 0) ∧
       ((waitForTx quietWorld sampleApp "ABC".toList).1 ≠ none ↔
        ∃ i c, i < fetches (waitForTx quietWorld sampleApp "ABC".toList).2 ∧
          decodedCode quietWorld sampleApp "ABC".toList i = some c ∧ c ≠ 0)) := by
  rintro ⟨h, _⟩
  have hnil : (waitForTx quietWorld sampleApp "ABC".toList).1 = none := by rfl
  obtain ⟨i, _, hi⟩ := h.1 hnil
  rw [quietWorld_decodes_nothing] at hi
  cases hi

/-- C2 where every fetch is answered 404: 50 fetches, then no error. -/
theorem waitForTx_attempt_budget_witness :
    fetches (waitForTx quietWorld sampleApp "ABC".toList).2 = 50 ∧
      (waitForTx quietWorld sampleApp "ABC".toList).1 = none :=
  (waitForTx_attempt_budget quietWorld sampleApp "ABC".toList).2.2
    (fun i _ => quietWorld_decodes_nothing sampleApp "ABC".toList i)

/-- C1 (amended) where the third fetch decodes the code 7: an error is returned. -/
theorem waitForTx_error_iff_nonzero_code_witness :
    (waitForTx rejectedWorld sampleApp "ABC".toList).1 ≠ none :=
  (waitForTx_error_iff_nonzero_code rejectedWorld sampleApp "ABC".toList).1.2
    ⟨2, 7, by decide, by decide, by decide⟩


/-! ## `broadcastOffer` -/

/-- Whatever the faucet answers, `provisionAddress` sends exactly one POST. -/
theorem provisionAddress_trace (w : World) (p : PSMLoadApp) (addr : GoString) :
    (provisionAddress w p addr).2 =
      [.post (instagoricToService p "faucet".toList ++ "/go".toList) (provisionForm addr)] := by
  unfold provisionAddress
  dsimp only
  split <;> rfl

/-- C3 (amended).  When the ledger tool exits with an error and its stderr contains
`not found: key not found`, `broadcastOffer` (for an index that has a key) runs the
tool once, makes exactly one provisioning POST for that identity's address, sleeps
10 seconds, and returns an error with an empty hash; the broadcast is not run again. -/
theorem broadcastOffer_unprovisioned (w : World) (p : PSMLoadApp) (idx : Int)
    (offerData addr : GoString)
    (hfail : (w.agd (cmdargs p idx offerData)).failed = true)
    (hkey : Index (w.agd (cmdargs p idx offerData)).stderr "not found: key not found".toList ≥ 0)
    (haddr : keyAt p idx = some addr) :
    broadcastOffer w p idx offerData =
      (.ret ([], some "error broadcasting offer".toList),
       [.exec "agd".toList (cmdargs p idx offerData),
        .post (instagoricToService p "faucet".toList ++ "/go".toList) (provisionForm addr),
        .sleep 10000]) := by
  unfold broadcastOffer
  simp only [hfail, if_true, hkey, haddr, provisionAddress_trace]
  rfl

/-- C3 (amended) for worker 0 when the account is unknown on chain. -/
theorem broadcastOffer_unprovisioned_witness :
    broadcastOffer unprovisionedWorld sampleApp 0 "offer".toList =
      (.ret ([], some "error broadcasting offer".toList),
       [.exec "agd".toList (cmdargs sampleApp 0 "offer".toList),
        .post (instagoricToService sampleApp "faucet".toList ++ "/go".toList)
          (provisionForm "agoric1aaa".toList),
        .sleep 10000]) :=
  broadcastOffer_unprovisioned unprovisionedWorld sampleApp 0 "offer".toList "agoric1aaa".toList
    (by rfl) (by decide) (by rfl)

/-- C3 as stated fails: stderr contains `key not found` and yet no provisioning call
is made and no pause is taken, both when the tool failed with a different not-found
message and when the tool succeeded (then the hash is returned with no error). -/
theorem broadcastOffer_key_not_found_unhandled :
    (Index (missingKeyWorld.agd (cmdargs sampleApp 0 "offer".toList)).stderr "key not found".toList ≥ 0 ∧
      posts (broadcastOffer missingKeyWorld sampleApp 0 "offer".toList).2 = 0 ∧
      Event.sleep 10000 ∉ (broadcastOffer missingKeyWorld sampleApp 0 "offer".toList).2) ∧
    (Index (noisyWorld.agd (cmdargs sampleApp 0 "offer".toList)).stderr "key not found".toList ≥ 0 ∧
      posts (broadcastOffer noisyWorld sampleApp 0 "offer".toList).2 = 0 ∧
      (broadcastOffer noisyWorld sampleApp 0 "offer".toList).1 = .ret ("ABC".toList, none)) := by
  decide


/-! ## `invokeNode`, `GetBoard`, `getOffer`, `main` -/

theorem invokeNode_resolved (w : World) (p : PSMLoadApp) (a : List GoString) (h : p.chainId ≠ []) :
    invokeNode w p a =
      ⟨p, ((w.node (ourArgs p a)).stdout, none), [.exec "node".toList (ourArgs p a)]⟩ := by
  unfold invokeNode
  rw [if_neg h]

theorem invokeNode_error (w : World) (p : PSMLoadApp) (a : List GoString) (e : GoString)
    (h : p.chainId = []) (hg : getChainId w p 0 = .error e) :
    invokeNode w p a = ⟨p, ([], some e), [.get p.Instagoric]⟩ := by
  unfold invokeNode
  rw [if_pos h, hg]

theorem invokeNode_store (w : World) (p : PSMLoadApp) (a : List GoString) (v : GoString)
    (h : p.chainId = []) (hg : getChainId w p 0 = .ok v) :
    invokeNode w p a =
      ⟨{ p with chainId := v }, ((w.node (ourArgs { p with chainId := v } a)).stdout, none),
        [.get p.Instagoric, .exec "node".toList (ourArgs { p with chainId := v } a)]⟩ := by
  unfold invokeNode
  rw [if_pos h, hg]

theorem execs_cons_same (cmd : GoString) (args : List GoString) (t : List Event) :
    execs cmd (.exec cmd args :: t) = execs cmd t + 1 := by
  simp [execs, Nat.add_comm]

theorem CreateKeysLoop_succ_some (w : World) (k : Nat) (i : Int) (p : PSMLoadApp) (addr : GoString)
    (h0 : 0 ≤ i) (h1 : i.toNat < p.keys.length)
    (hre : reFind (w.agd (newKeyArgs p i)).stdout = some addr) :
    CreateKeysLoop w (k + 1) i p =
      ⟨(CreateKeysLoop w k (i + 1) { p with keys := p.keys.set i.toNat addr }).app,
       (CreateKeysLoop w k (i + 1) { p with keys := p.keys.set i.toNat addr }).result,
       .exec "agd".toList (newKeyArgs p i) ::
         (CreateKeysLoop w k (i + 1) { p with keys := p.keys.set i.toNat addr }).trace⟩ := by
  rw [CreateKeysLoop]
  simp only [newKey, hre, h0, h1, and_self, if_true]

theorem CreateKeysLoop_succ_none (w : World) (k : Nat) (i : Int) (p : PSMLoadApp)
    (h0 : 0 ≤ i) (h1 : i.toNat < p.keys.length)
    (hre : reFind (w.agd (newKeyArgs p i)).stdout = none) :
    CreateKeysLoop w (k + 1) i p =
      ⟨{ p with keys := p.keys.set i.toNat [] }, .panicked "error making key".toList,
       [.exec "agd".toList (newKeyArgs p i)]⟩ := by
  rw [CreateKeysLoop]
  simp only [newKey, hre, h0, h1, and_self, if_true]

/-- The loop, started at index `a` with room for the `k` remaining slots: it returns
normally after `k` tool runs when every output yields an address, and panics right
after the first tool run whose output yields none. -/
theorem CreateKeysLoop_spec (w : World) (p0 : PSMLoadApp) (k : Nat) :
    ∀ (a : Nat) (p : PSMLoadApp), p.homeDir = p0.homeDir → a + k ≤ p.keys.length →
    ((∀ j, j < k → reFind (w.agd (newKeyArgs p0 ((a + j : Nat) : Int))).stdout ≠ none) →
      (CreateKeysLoop w k (a : Int) p).result = .ret none ∧
      execs "agd".toList (CreateKeysLoop w k (a : Int) p).trace = k) ∧
    (∀ j, j < k → reFind (w.agd (newKeyArgs p0 ((a + j : Nat) : Int))).stdout = none →
      (∀ m, m < j → reFind (w.agd (newKeyArgs p0 ((a + m : Nat) : Int))).stdout ≠ none) →
      (CreateKeysLoop w k (a : Int) p).result = .panicked "error making key".toList ∧
      execs "agd".toList (CreateKeysLoop w k (a : Int) p).trace = j + 1) := by
  induction k with
  | zero =>
    intro a p _ _
    exact ⟨fun _ => ⟨rfl, rfl⟩, fun j hj => absurd hj (Nat.not_lt_zero j)⟩
  | succ k ih =>
    intro a p hh hlen
    have hargs : newKeyArgs p (a : Int) = newKeyArgs p0 (a : Int) := by
      simp [newKeyArgs, hh]
    have h0 : (0 : Int) ≤ (a : Int) := Int.ofNat_nonneg a
    have hto : (a : Int).toNat = a := Int.toNat_ofNat a
    have h1 : (a : Int).toNat < p.keys.length := by omega
    have hnext : (a : Int) + 1 = ((a + 1 : Nat) : Int) := by push_cast; rfl
    refine ⟨?_, ?_⟩
    · intro hall
      have hhead : reFind (w.agd (newKeyArgs p0 (a : Int))).stdout ≠ none := hall 0 (Nat.succ_pos k)
      obtain ⟨addr, hre⟩ := Option.ne_none_iff_exists'.1 hhead
      have hrest := (ih (a + 1) { p with keys := p.keys.set (a : Int).toNat addr } hh
        (by simp only [List.length_set]; omega)).1
        (fun j hj => by
          have := hall (j + 1) (by omega)
          rwa [show a + (j + 1) = a + 1 + j by omega] at this)
      rw [CreateKeysLoop_succ_some w k _ p addr h0 h1 (by rw [hargs]; exact hre), hnext]
      exact ⟨hrest.1, by rw [execs_cons_same, hrest.2]⟩
    · intro j hj hnone hprev
      cases j with
      | zero =>
        have hre : reFind (w.agd (newKeyArgs p0 (a : Int))).stdout = none := hnone
        rw [CreateKeysLoop_succ_none w k _ p h0 h1 (by rw [hargs]; exact hre)]
        exact ⟨rfl, by rw [execs_cons_same]; rfl⟩
      | succ j =>
        have hhead : reFind (w.agd (newKeyArgs p0 (a : Int))).stdout ≠ none :=
          hprev 0 (Nat.succ_pos j)
        obtain ⟨addr, hre⟩ := Option.ne_none_iff_exists'.1 hhead
        have hrest := (ih (a + 1) { p with keys := p.keys.set (a : Int).toNat addr } hh
          (by simp only [List.length_set]; omega)).2 j (by omega)
          (by rwa [show a + (j + 1) = a + 1 + j by omega] at hnone)
          (fun m hm => by
            have := hprev (m + 1) (by omega)
            rwa [show a + (m + 1) = a + 1 + m by omega] at this)
        rw [CreateKeysLoop_succ_some w k _ p addr h0 h1 (by rw [hargs]; exact hre), hnext]
        exact ⟨hrest.1, by rw [execs_cons_same, hrest.2]⟩

/-- C5 (amended).  With a key slot for every worker, `CreateKeys` completes normally
exactly when the output of every one of the `n` key-tool runs yields an address, and
it panics right after the first run whose output yields none (`i + 1` runs have then
been made).  Whether the tool reported failure plays no part. -/
theorem CreateKeys_panics_at_first_missing_address (w : World) (p : PSMLoadApp)
    (hkeys : p.Workers.toNat ≤ p.keys.length) :
    ((CreateKeys w p).result = .ret none ↔
      ∀ i, i < p.Workers.toNat → reFind (w.agd (newKeyArgs p (i : Int))).stdout ≠ none) ∧
    (∀ i, i < p.Workers.toNat → reFind (w.agd (newKeyArgs p (i : Int))).stdout = none →
      (∀ j, j < i → reFind (w.agd (newKeyArgs p (j : Int))).stdout ≠ none) →
      (CreateKeys w p).result = .panicked "error making key".toList ∧
      execs "agd".toList (CreateKeys w p).trace = i + 1) := by
  have hspec := CreateKeysLoop_spec w p p.Workers.toNat 0 p rfl (by omega)
  simp only [Nat.zero_add, Nat.cast_zero] at hspec
  have hsecond : ∀ i, i < p.Workers.toNat → reFind (w.agd (newKeyArgs p (i : Int))).stdout = none →
      (∀ j, j < i → reFind (w.agd (newKeyArgs p (j : Int))).stdout ≠ none) →
      (CreateKeys w p).result = .panicked "error making key".toList ∧
      execs "agd".toList (CreateKeys w p).trace = i + 1 := hspec.2
  refine ⟨⟨?_, fun h => (hspec.1 h).1⟩, hsecond⟩
  intro hret
  by_contra hex
  push_neg at hex
  have hex2 : ∃ i, i < p.Workers.toNat ∧ reFind (w.agd (newKeyArgs p (i : Int))).stdout = none := hex
  classical
  have hmin := Nat.find_spec hex2
  have hlt : ∀ j, j < Nat.find hex2 →
      reFind (w.agd (newKeyArgs p (j : Int))).stdout ≠ none := by
    intro j hj hnone
    exact Nat.find_min hex2 hj ⟨by omega, hnone⟩
  have := (hsecond (Nat.find hex2) hmin.1 hmin.2 hlt).1
  rw [hret] at this
  cases this

/-- C5 (amended) when the very first output has no address line. -/
theorem CreateKeys_panics_at_first_missing_address_witness :
    (CreateKeys quietWorld sampleApp).result = .panicked "error making key".toList ∧
      execs "agd".toList (CreateKeys quietWorld sampleApp).trace = 0 + 1 :=
  (CreateKeys_panics_at_first_missing_address quietWorld sampleApp (by decide)).2 0
    (by decide) (by decide) (fun j hj => absurd hj (Nat.not_lt_zero j))

/-- C5 as stated fails: the key tool exits with an error, its output still holds an
address line, and `CreateKeys` completes normally with that address stored. -/
theorem CreateKeys_survives_failed_tool :
    (failingKeyToolWorld.agd (newKeyArgs oneKeyApp 0)).failed = true ∧
    (CreateKeys failingKeyToolWorld oneKeyApp).result = .ret none ∧
    (CreateKeys failingKeyToolWorld oneKeyApp).app.keys = ["agoric1xyz".toList] := by
  decide


/-! ## `getOffer` and the worker cycle -/

/-- C8 (amended).  Whenever the quoting tool is run, `getOffer` returns its raw
standard output as the payload with no error, whether or not the tool failed.  The
only error `getOffer` returns is a failed chain-id resolution, and then the tool is
not run. -/
theorem getOffer_returns_tool_output (w : World) (p : PSMLoadApp) (want : Float64) :
    (p.chainId ≠ [] →
      (getOffer w p want).result =
        ((w.node (ourArgs p (offerArgs w p want))).stdout, none)) ∧
    (p.chainId = [] → ∀ v, getChainId w p 0 = .ok v →
      (getOffer w p want).result =
        ((w.node (ourArgs { p with chainId := v } (offerArgs w p want))).stdout, none)) ∧
    (p.chainId = [] → ∀ e, getChainId w p 0 = .error e →
      (getOffer w p want).result = ([], some e) ∧
      execs "node".toList (getOffer w p want).trace = 0) := by
  refine ⟨?_, ?_, ?_⟩
  · intro h
    unfold getOffer
    rw [invokeNode_resolved w p _ h]
  · intro h v hg
    unfold getOffer
    rw [invokeNode_store w p _ v h hg]
  · intro h e hg
    unfold getOffer
    rw [invokeNode_error w p _ e h hg]
    exact ⟨rfl, rfl⟩

/-- C8 (amended) for a failing quoting tool with the chain id resolved. -/
theorem getOffer_returns_tool_output_witness :
    (getOffer failingNodeWorld sampleApp float_0_01).result =
      ((failingNodeWorld.node (ourArgs sampleApp (offerArgs failingNodeWorld sampleApp float_0_01))).stdout,
        none) :=
  (getOffer_returns_tool_output failingNodeWorld sampleApp float_0_01).1 (by decide)

/-- C8 as stated fails: the quoting tool exits with an error and `getOffer` returns
an empty payload with no error. -/
theorem getOffer_swallows_tool_failure :
    (failingNodeWorld.node
      (ourArgs sampleApp (offerArgs failingNodeWorld sampleApp float_0_01))).failed = true ∧
    (getOffer failingNodeWorld sampleApp float_0_01).result = ([], none) := by
  decide

theorem indexFrom_neg_findAfter (lit s : GoString) (i : Nat) (h : indexFrom lit s i < 0) :
    findAfter lit s = none := by
  induction s generalizing i with
  | nil => rfl
  | cons c cs ih =>
    unfold indexFrom at h
    by_cases hp : HasPrefix (c :: cs) lit = true
    · rw [if_pos hp] at h
      omega
    · rw [if_neg hp] at h
      unfold findAfter
      simp only [hp, Bool.false_and, if_false]
      exact ih (i + 1) h

theorem waitForTx_first_event (w : World) (p : PSMLoadApp) (tx : GoString) :
    (waitForTx w p tx).2.head? = some (.get (txUrl p tx)) := by
  unfold waitForTx
  rw [show (50 : Nat) = 49 + 1 from rfl, waitForTxLoop]
  split
  · rfl
  · split <;> rfl

/-- C9 (amended).  When the offer was built, the ledger tool exits successfully and
its stdout contains no `txhash: `, `broadcastOffer` returns an empty hash with no
error, and `work` passes that empty hash on to `waitForTx`, which starts polling the
status URL of the empty hash. -/
theorem work_polls_empty_hash (w : World) (p : PSMLoadApp) (idx : Int)
    (hoffer : (getOffer w p float_0_01).result.2 = none)
    (hok : (w.agd (cmdargs (getOffer w p float_0_01).app idx
      (getOffer w p float_0_01).result.1)).failed = false)
    (hnohash : Index (w.agd (cmdargs (getOffer w p float_0_01).app idx
      (getOffer w p float_0_01).result.1)).stdout "txhash: ".toList < 0) :
    (broadcastOffer w (getOffer w p float_0_01).app idx (getOffer w p float_0_01).result.1).1 =
      .ret ([], none) ∧
    (work w p idx).trace =
      (getOffer w p float_0_01).trace ++
      [.exec "agd".toList (cmdargs (getOffer w p float_0_01).app idx
        (getOffer w p float_0_01).result.1)] ++
      (waitForTx w (getOffer w p float_0_01).app []).2 ∧
    (waitForTx w (getOffer w p float_0_01).app []).2.head? =
      some (.get (txUrl (getOffer w p float_0_01).app [])) := by
  have hb : broadcastOffer w (getOffer w p float_0_01).app idx (getOffer w p float_0_01).result.1 =
      (.ret ([], none), [.exec "agd".toList (cmdargs (getOffer w p float_0_01).app idx
        (getOffer w p float_0_01).result.1)]) := by
    unfold broadcastOffer
    simp only [hok, Bool.false_eq_true, if_false, txChainFind,
      indexFrom_neg_findAfter _ _ 0 hnohash]
  refine ⟨by rw [hb], ?_, waitForTx_first_event w _ _⟩
  unfold work
  simp only [hoffer, hb]

/-- C9 (amended) in a world where both tools print nothing and succeed. -/
theorem work_polls_empty_hash_witness :
    (work quietWorld sampleApp 0).trace =
      (getOffer quietWorld sampleApp float_0_01).trace ++
      [.exec "agd".toList (cmdargs (getOffer quietWorld sampleApp float_0_01).app 0
        (getOffer quietWorld sampleApp float_0_01).result.1)] ++
      (waitForTx quietWorld (getOffer quietWorld sampleApp float_0_01).app []).2 :=
  (work_polls_empty_hash quietWorld sampleApp 0 (by decide) (by decide) (by decide)).2.1

/-- C9 as stated fails: the ledger tool succeeds without printing a hash,
`broadcastOffer` returns an empty hash with no error, and `work` then makes 50
status fetches for the empty hash. -/
theorem work_fetches_for_empty_hash :
    (quietWorld.agd (cmdargs sampleApp 0 [])).failed = false ∧
    Index (quietWorld.agd (cmdargs sampleApp 0 [])).stdout "txhash: ".toList < 0 ∧
    (broadcastOffer quietWorld sampleApp 0 []).1 = .ret ([], none) ∧
    fetches (work quietWorld sampleApp 0).trace = 50 ∧
    Event.get "https://ollinet.api.agoric.net:443/cosmos/tx/v1beta1/txs/".toList ∈
      (work quietWorld sampleApp 0).trace := by
  decide


/-! ## The cached chain id -/

theorem restOfLine_isEmpty_false (s : GoString) (h : (restOfLine s).isEmpty = false) :
    restOfLine s ≠ [] := by
  intro h0
  rw [h0] at h
  cases h

theorem findAfter_ne_nil (lit s v : GoString) (h : findAfter lit s = some v) : v ≠ [] := by
  induction s with
  | nil => cases h
  | cons c cs ih =>
    unfold findAfter at h
    split at h
    · rename_i hc
      simp only [Bool.and_eq_true, Bool.not_eq_true'] at hc
      cases h
      exact restOfLine_isEmpty_false _ hc.2
    · exact ih h

/-- A chain id that `getChainId` returns is never the empty string. -/
theorem getChainId_ne_nil (w : World) (p : PSMLoadApp) (n : Nat) (v : GoString)
    (h : getChainId w p n = .ok v) : v ≠ [] := by
  unfold getChainId at h
  split at h
  · cases h
  · split at h
    · rename_i hre
      cases h
      exact findAfter_ne_nil _ _ _ hre
    · cases h

theorem invokeNode_Instagoric (w : World) (p : PSMLoadApp) (a : List GoString) :
    (invokeNode w p a).app.Instagoric = p.Instagoric := by
  unfold invokeNode
  split
  · split <;> rfl
  · rfl

theorem recordCall_resolved (w : World) (p : PSMLoadApp) (a : List GoString) (h : p.chainId ≠ []) :
    recordCall w p a =
      ⟨p.chainId, p.chainId, false, some (ourArgs p a), none⟩ := by
  unfold recordCall
  rw [invokeNode_resolved w p a h]
  simp [nodeArgsOf]

theorem recordCall_error (w : World) (p : PSMLoadApp) (a : List GoString) (e : GoString)
    (h : p.chainId = []) (hg : getChainId w p 0 = .error e) :
    recordCall w p a = ⟨[], [], true, none, some e⟩ := by
  unfold recordCall
  rw [invokeNode_error w p a e h hg]
  simp [nodeArgsOf, h]

theorem recordCall_store (w : World) (p : PSMLoadApp) (a : List GoString) (v : GoString)
    (h : p.chainId = []) (hg : getChainId w p 0 = .ok v) :
    recordCall w p a = ⟨[], v, true, some (ourArgs { p with chainId := v } a), none⟩ := by
  unfold recordCall
  rw [invokeNode_store w p a v h hg]
  simp [nodeArgsOf, h]

/-- What a call does on its own, by the state of the cache it finds. -/
theorem recordCall_cases (w : World) (p : PSMLoadApp) (a : List GoString) :
    (p.chainId ≠ [] ∧ (invokeNode w p a).app = p ∧
      recordCall w p a = ⟨p.chainId, p.chainId, false, some (ourArgs p a), none⟩) ∨
    (p.chainId = [] ∧ (invokeNode w p a).app = p ∧
      ∃ e, recordCall w p a = ⟨[], [], true, none, some e⟩) ∨
    (p.chainId = [] ∧ ∃ v, v ≠ [] ∧ (invokeNode w p a).app = { p with chainId := v } ∧
      recordCall w p a = ⟨[], v, true, some (ourArgs { p with chainId := v } a), none⟩) := by
  by_cases h : p.chainId = []
  · cases hg : getChainId w p 0 with
    | error e =>
      exact Or.inr (Or.inl ⟨h, by rw [invokeNode_error w p a e h hg], e,
        recordCall_error w p a e h hg⟩)
    | ok v =>
      exact Or.inr (Or.inr ⟨h, v, getChainId_ne_nil w p 0 v hg,
        by rw [invokeNode_store w p a v h hg], recordCall_store w p a v h hg⟩)
  · exact Or.inl ⟨h, by rw [invokeNode_resolved w p a h], recordCall_resolved w p a h⟩

/-- Once the cache holds a value, every call of a run finds it, leaves it, sends no
GET and hands that value to the tool. -/
theorem runInvokes_resolved (p : PSMLoadApp) (calls : List (World × List GoString))
    (h : p.chainId ≠ []) :
    ∀ r, r ∈ runInvokes p calls →
      r.before = p.chainId ∧ r.after = p.chainId ∧ r.issuedGet = false ∧ r.err = none ∧
      usesChainId p p.chainId r := by
  induction calls with
  | nil => intro r hr; simp [runInvokes] at hr
  | cons c calls ih =>
    obtain ⟨w, a⟩ := c
    intro r hr
    rw [runInvokes, invokeNode_resolved w p a h, recordCall_resolved w p a h] at hr
    rcases List.mem_cons.1 hr with rfl | hr
    · exact ⟨rfl, rfl, rfl, rfl, a, rfl⟩
    · exact ih r hr

theorem writes_cons (r : CallRecord) (rs : List CallRecord) :
    writes (r :: rs) = (if r.before = r.after then 0 else 1) + writes rs := by
  unfold writes
  by_cases h : r.before = r.after
  · simp [List.filter_cons, h]
  · simp [List.filter_cons, h, Nat.add_comm]

theorem writes_resolved (p : PSMLoadApp) (calls : List (World × List GoString))
    (h : p.chainId ≠ []) : writes (runInvokes p calls) = 0 := by
  unfold writes
  rw [List.length_eq_zero, List.filter_eq_nil_iff]
  intro r hr
  obtain ⟨h1, h2, _⟩ := runInvokes_resolved p calls h r hr
  simp [h1, h2]

theorem writes_le_one (p : PSMLoadApp) (calls : List (World × List GoString)) :
    writes (runInvokes p calls) ≤ 1 := by
  induction calls generalizing p with
  | nil => simp [runInvokes, writes]
  | cons c calls ih =>
    obtain ⟨w, a⟩ := c
    rw [runInvokes, writes_cons]
    rcases recordCall_cases w p a with ⟨h, happ, hrec⟩ | ⟨h, happ, e, hrec⟩ | ⟨h, v, hv, happ, hrec⟩
    · rw [happ, hrec, writes_resolved p calls h]
      simp
    · rw [happ, hrec]
      simpa using ih p
    · rw [happ, hrec, writes_resolved _ calls (by exact hv)]
      simp [hv.symm]

theorem runInvokes_Instagoric_usesChainId (w : World) (p : PSMLoadApp) (a : List GoString)
    (v : GoString) (r : CallRecord) (h : usesChainId (invokeNode w p a).app v r) :
    usesChainId p v r := by
  obtain ⟨rest, hr⟩ := h
  refine ⟨rest, ?_⟩
  rw [hr]
  simp [instagoricToService, invokeNode_Instagoric]

theorem getChainId_congr (w : World) (p q : PSMLoadApp) (n : Nat)
    (h : q.Instagoric = p.Instagoric) : getChainId w q n = getChainId w p n := by
  unfold getChainId
  rw [h]

theorem usesChainId_congr (p q : PSMLoadApp) (v : GoString) (r : CallRecord)
    (h : q.Instagoric = p.Instagoric) (hu : usesChainId q v r) : usesChainId p v r := by
  obtain ⟨rest, hr⟩ := hu
  refine ⟨rest, ?_⟩
  rw [hr]
  simp [instagoricToService, h]

/-- In a run, a call that finds the cache empty does what its own resolution
decides: on failure it returns that error, runs no tool and leaves the cache empty;
on success it stores the value and hands it to the tool. -/
theorem runInvokes_unresolved_call (p : PSMLoadApp) (calls : List (World × List GoString)) :
    ∀ (i : Nat) (r : CallRecord) (w : World) (a : List GoString),
      (runInvokes p calls)[i]? = some r → calls[i]? = some (w, a) → r.before = [] →
      (∀ e, getChainId w p 0 = .error e →
        r.err = some e ∧ r.toolArgs = none ∧ r.after = [] ∧ r.issuedGet = true) ∧
      (∀ v, getChainId w p 0 = .ok v →
        r.err = none ∧ r.after = v ∧ r.issuedGet = true ∧ usesChainId p v r) := by
  induction calls generalizing p with
  | nil => intro i r w a hi; simp [runInvokes] at hi
  | cons c calls ih =>
    obtain ⟨w0, a0⟩ := c
    intro i r w a hi hc hb
    rw [runInvokes] at hi
    cases i with
    | zero =>
      rw [List.getElem?_cons_zero] at hi hc
      cases hi
      simp only [Option.some.injEq, Prod.mk.injEq] at hc
      obtain ⟨hw, ha⟩ := hc
      rw [← hw]
      have hp : p.chainId = [] := hb
      refine ⟨fun e hg => ?_, fun v hg => ?_⟩
      · rw [recordCall_error w0 p a0 e hp hg]
        exact ⟨rfl, rfl, rfl, rfl⟩
      · rw [recordCall_store w0 p a0 v hp hg]
        exact ⟨rfl, rfl, rfl, a0, rfl⟩
    | succ i =>
      rw [List.getElem?_cons_succ] at hi hc
      have hI := invokeNode_Instagoric w0 p a0
      obtain ⟨h1, h2⟩ := ih (invokeNode w0 p a0).app i r w a hi hc hb
      refine ⟨fun e hg => h1 e ?_, fun v hg => ?_⟩
      · rw [getChainId_congr w p _ 0 hI]
        exact hg
      · obtain ⟨k1, k2, k3, k4⟩ := h2 v (by rw [getChainId_congr w p _ 0 hI]; exact hg)
        exact ⟨k1, k2, k3, usesChainId_congr p _ v r hI k4⟩

/-- C6.  In a sequential run of `invokeNode` calls the cached chain id changes at
most once.  A call that finds it empty sends the chain-root GET; when the extraction
fails, the call returns that error to its caller, runs no quoting tool and leaves
the cache empty for a later call to retry; when it succeeds, the call stores the
value and hands it to the quoting tool.  Errors come from calls that found the cache
empty only.  Once a call has left a value in the cache, every later call finds that
value, leaves it, sends no GET, returns no error and hands that value to the
quoting tool. -/
theorem invokeNode_caches_chainId_once (p : PSMLoadApp) (calls : List (World × List GoString)) :
    writes (runInvokes p calls) ≤ 1 ∧
    (∀ r, r ∈ runInvokes p calls →
      (r.before = [] → r.issuedGet = true) ∧
      (r.before = [] → r.err ≠ none → r.toolArgs = none ∧ r.after = []) ∧
      (r.err ≠ none → r.before = [])) ∧
    (∀ (i j : Nat) (ri rj : CallRecord), i < j → (runInvokes p calls)[i]? = some ri → (runInvokes p calls)[j]? = some rj →
      ri.after ≠ [] →
      rj.before = ri.after ∧ rj.after = ri.after ∧ rj.issuedGet = false ∧ rj.err = none ∧
      usesChainId p ri.after rj) ∧
    (∀ (i : Nat) (r : CallRecord) (w : World) (a : List GoString),
      (runInvokes p calls)[i]? = some r → calls[i]? = some (w, a) → r.before = [] →
      (∀ e, getChainId w p 0 = .error e →
        r.err = some e ∧ r.toolArgs = none ∧ r.after = [] ∧ r.issuedGet = true) ∧
      (∀ v, getChainId w p 0 = .ok v →
        r.err = none ∧ r.after = v ∧ r.issuedGet = true ∧ usesChainId p v r)) := by
  refine ⟨writes_le_one p calls, ?_, ?_, runInvokes_unresolved_call p calls⟩
  · induction calls generalizing p with
    | nil => intro r hr; simp [runInvokes] at hr
    | cons c calls ih =>
      obtain ⟨w, a⟩ := c
      intro r hr
      rw [runInvokes] at hr
      rcases List.mem_cons.1 hr with rfl | hr
      · rcases recordCall_cases w p a with ⟨h, _, hrec⟩ | ⟨h, _, e, hrec⟩ | ⟨h, v, hv, _, hrec⟩
        · rw [hrec]
          exact ⟨fun h0 => absurd h0 h, fun h0 => absurd h0 h, fun h0 => absurd rfl h0⟩
        · rw [hrec]
          exact ⟨fun _ => rfl, fun _ _ => ⟨rfl, rfl⟩, fun _ => rfl⟩
        · rw [hrec]
          exact ⟨fun _ => rfl, fun _ h0 => absurd rfl h0, fun _ => rfl⟩
      · exact ih _ r hr
  · induction calls generalizing p with
    | nil => intro i j ri rj _ hi; simp [runInvokes] at hi
    | cons c calls ih =>
      obtain ⟨w, a⟩ := c
      intro i j ri rj hij hi hj hne
      rw [runInvokes] at hi hj
      cases j with
      | zero => omega
      | succ j =>
        rw [List.getElem?_cons_succ] at hj
        have hmem : rj ∈ runInvokes (invokeNode w p a).app calls := List.getElem?_mem hj
        cases i with
        | zero =>
          rw [List.getElem?_cons_zero] at hi
          cases hi
          rcases recordCall_cases w p a with ⟨h, happ, hrec⟩ | ⟨h, _, e, hrec⟩ | ⟨h, v, hv, happ, hrec⟩
          · rw [hrec]
            rw [happ] at hmem
            exact runInvokes_resolved p calls h rj hmem
          · rw [hrec] at hne
            exact absurd rfl hne
          · rw [hrec]
            rw [happ] at hmem
            obtain ⟨h1, h2, h3, h4, h5⟩ := runInvokes_resolved _ calls (by exact hv) rj hmem
            exact ⟨h1, h2, h3, h4, h5⟩
        | succ i =>
          rw [List.getElem?_cons_succ] at hi
          obtain ⟨h1, h2, h3, h4, h5⟩ := ih _ i j ri rj (by omega) hi hj hne
          exact ⟨h1, h2, h3, h4, runInvokes_Instagoric_usesChainId w p a _ _ h5⟩

/-- C6 on a run of three calls.  The first call fails to resolve and returns that
error without running the tool; the second resolves; the third, made after the value
is cached, hands the cached value to the tool. -/
theorem invokeNode_caches_chainId_once_witness :
    writes (runInvokes freshApp sampleRun) ≤ 1 ∧
    usesChainId freshApp "agoric-A".toList
      (recordCall quietWorld { freshApp with chainId := "agoric-A".toList } ["--contract".toList]) ∧
    ((recordCall quietWorld freshApp ["--contract".toList]).err =
        some "unable to find chain id".toList ∧
      (recordCall quietWorld freshApp ["--contract".toList]).toolArgs = none ∧
      (recordCall quietWorld freshApp ["--contract".toList]).after = [] ∧
      (recordCall quietWorld freshApp ["--contract".toList]).issuedGet = true) :=
  ⟨(invokeNode_caches_chainId_once freshApp sampleRun).1,
   ((invokeNode_caches_chainId_once freshApp sampleRun).2.2.1 1 2
      (recordCall racyWorld freshApp ["--contract".toList])
      (recordCall quietWorld { freshApp with chainId := "agoric-A".toList } ["--contract".toList])
      (by decide) (by decide) (by decide) (by decide)).2.2.2.2,
   ((invokeNode_caches_chainId_once freshApp sampleRun).2.2.2 0
      (recordCall quietWorld freshApp ["--contract".toList]) quietWorld ["--contract".toList]
      (by decide) (by rfl) (by decide)).1 "unable to find chain id".toList (by rfl)⟩

/-! ## Interleaved calls -/

/-- A thread that runs `invokeNode` with no other thread around goes through the
steps of the interleaving model and ends where the sequential `invokeNode` ends:
same cached id, mutex free, one `getChainId` exactly when the cache was empty. -/
theorem solo_thread_agrees (w : World) (p : PSMLoadApp) (a : List GoString) :
    runSchedule w p [0, 0, 0, 0, 0, 0] (Conc.init p 1) =
      ⟨⟨(invokeNode w p a).app.chainId, false, if p.chainId = [] then 1 else 0⟩,
       [.done (match (invokeNode w p a).result.2 with
               | some _ => none
               | none => some (invokeNode w p a).app.chainId)]⟩ := by
  by_cases h : p.chainId = []
  · cases hg : getChainId w p 0 with
    | error e =>
      rw [invokeNode_error w p a e h hg]
      simp [runSchedule, Conc.init, Conc.step, stepThread, h, hg]
    | ok v =>
      rw [invokeNode_store w p a v h hg]
      simp [runSchedule, Conc.init, Conc.step, stepThread, h, hg]
  · rw [invokeNode_resolved w p a h]
    simp [runSchedule, Conc.init, Conc.step, stepThread, h]

end PSMLoad
